import Mathlib

/-!
Verification of the Stump job control subsystem (core/src/job/controller.rs)
and of the emailer REST handlers (apps/server/src/routers/api/v1/emailer.rs),
as a shallow embedding in Lean 4.

The `JobController` command loop, `push_command`, and the emailer handlers
are translated from the Rust source. The `JobManager` itself (admission,
completion, cancellation, pause/resume, shutdown) is not part of the given
sources — only its caller, the controller, is — so its operations are
modelled from the specification, each marked `Modelled from the spec:`.
-/

namespace Stump

/-- Errors of the job manager, from the spec error taxonomy (§7):
unknown id, operation invalid for current status, enqueue id collision. -/
inductive JobManagerError where
  | NotFound
  | InvalidState
  | DuplicateId
  deriving DecidableEq, Repr

/-- An entry of the running table: the job id together with the
cancellation/pause signal handles the Manager retains while the Executor
runs elsewhere. -/
structure RunningEntry where
  id : String
  cancelRequested : Bool
  pauseRequested : Bool
  deriving DecidableEq, Repr

/-- The Job Manager's in-memory scheduling state: the pending FIFO queue and
the running table (both owned exclusively by the Manager), plus a history
field `started` recording every job id whose Executor run hook has been
dispatched to an execution context (used to express "the run hook is never
invoked" properties; it is observational history, not Manager bookkeeping). -/
structure ManagerState where
  queue : List String
  running : List RunningEntry
  started : List String
  deriving DecidableEq, Repr

/-- The ids currently present in the running table. -/
def runningIds (s : ManagerState) : List String :=
  s.running.map RunningEntry.id

/-- The Manager state at controller start: nothing queued, nothing running. -/
def initialState : ManagerState :=
  { queue := [], running := [], started := [] }

/-- Modelled from the spec: `JobManager::enqueue` (admission, §4.2 Admit) —
the manager source is not in the provided files. Rejects with `DuplicateId`
if the id already exists in either the queue or the running table; otherwise
promotes immediately to Running (dispatching the Executor, recorded in
`started`) when `|running| < N`, else appends to the tail of the queue. -/
def enqueue (N : Nat) (s : ManagerState) (id : String) :
    Except JobManagerError ManagerState :=
  if id ∈ s.queue ∨ id ∈ runningIds s then
    .error .DuplicateId
  else if s.running.length < N then
    .ok { s with
      running := s.running ++ [⟨id, false, false⟩],
      started := s.started ++ [id] }
  else
    .ok { s with queue := s.queue ++ [id] }

/-- Modelled from the spec: the "fill-to-capacity" promotion loop of
`JobManager::complete` (§4.2) — repeatedly promotes queue-head entries to
Running while `|running| < N` and the queue is non-empty. Recursion on the
queue; returns the new (queue, running, started) triple. -/
def fillAux (N : Nat) : List String → List RunningEntry → List String →
    List String × List RunningEntry × List String
  | [], running, started => ([], running, started)
  | id :: rest, running, started =>
    if running.length < N then
      fillAux N rest (running ++ [⟨id, false, false⟩]) (started ++ [id])
    else (id :: rest, running, started)

/-- Modelled from the spec: fill-to-capacity applied to a Manager state. -/
def fillToCapacity (N : Nat) (s : ManagerState) : ManagerState :=
  match fillAux N s.queue s.running s.started with
  | (q, r, st) => { queue := q, running := r, started := st }

/-- Modelled from the spec: `JobManager::complete` (§4.2) — removes `id`
from the running table (a no-op, with a logged warning, if absent), then
promotes queued jobs up to capacity. -/
def complete (N : Nat) (s : ManagerState) (id : String) : ManagerState :=
  fillToCapacity N
    { s with running := s.running.filter (fun e => e.id ≠ id) }

/-- Modelled from the spec: `JobManager::cancel` (§4.2) — if `id` is queued,
remove it directly from the queue (the job never starts) and succeed; if it
is running, raise its cancellation signal and succeed immediately; otherwise
`NotFound`. Returns the result together with the updated state. -/
def cancel (s : ManagerState) (id : String) :
    Except JobManagerError Unit × ManagerState :=
  if id ∈ s.queue then
    (.ok (), { s with queue := s.queue.filter (fun q => q ≠ id) })
  else if id ∈ runningIds s then
    (.ok (), { s with running := s.running.map (fun e =>
      if e.id = id then { e with cancelRequested := true } else e) })
  else
    (.error .NotFound, s)

/-- Modelled from the spec: `JobManager::pause` (§4.2) — valid only against
Running jobs: raises the pause signal; a queued id is `InvalidState`, an
unknown id is `NotFound`, both leaving the state unchanged. -/
def pause (s : ManagerState) (id : String) :
    Except JobManagerError Unit × ManagerState :=
  if id ∈ runningIds s then
    (.ok (), { s with running := s.running.map (fun e =>
      if e.id = id then { e with pauseRequested := true } else e) })
  else if id ∈ s.queue then
    (.error .InvalidState, s)
  else
    (.error .NotFound, s)

/-- Modelled from the spec: `JobManager::resume` (§4.2) — valid only against
Running jobs: clears the pause signal; a queued id is `InvalidState`, an
unknown id is `NotFound`, both leaving the state unchanged. -/
def resume (s : ManagerState) (id : String) :
    Except JobManagerError Unit × ManagerState :=
  if id ∈ runningIds s then
    (.ok (), { s with running := s.running.map (fun e =>
      if e.id = id then { e with pauseRequested := false } else e) })
  else if id ∈ s.queue then
    (.error .InvalidState, s)
  else
    (.error .NotFound, s)

/-- Modelled from the spec: `JobManager::shutdown` (§4.2) — raises the
cancellation signal for every running job, discards the entire queue without
starting those jobs, and waits (up to a bounded grace period, after which
stragglers are abandoned) until no running execution remains. The state it
returns therefore has an empty queue and an empty running table; no new run
hooks are invoked. -/
def shutdown (s : ManagerState) : ManagerState :=
  { queue := [], running := [], started := s.started }

/-- Input for commands that require an acknowledgement when completed. The
Rust `ack : oneshot::Sender<JobManagerResult<()>>` is modelled by `ackAlive`:
whether the oneshot receiver is still alive when the reply is sent (the only
observable of the sender that the controller's `send` depends on). -/
structure AcknowledgeableCommand where
  id : String
  ackAlive : Bool
  deriving DecidableEq, Repr

/-- Events that can be sent to the job controller
(`JobControllerCommand` in controller.rs). The boxed `Executor` of
`EnqueueJob` is represented by its stable unique identifier, the only part
of the capability surface the scheduling state depends on; `Shutdown`'s
`oneshot::Sender<()>` is modelled by the liveness of its receiver. -/
inductive JobControllerCommand where
  | EnqueueJob (id : String)
  | CompleteJob (id : String)
  | CancelJob (cmd : AcknowledgeableCommand)
  | PauseJob (id : String)
  | ResumeJob (id : String)
  | Shutdown (ackAlive : Bool)
  deriving DecidableEq, Repr

/-- Modelled from the spec: the `WorkerSend` envelope (its definition lives
outside the provided sources); controller.rs shows only that a
`JobControllerCommand` is wrapped in its `ManagerCommand` variant. -/
inductive WorkerSend where
  | ManagerCommand (cmd : JobControllerCommand)

/-- `WorkerSendExt::into_send` for `JobControllerCommand` (controller.rs):
wraps the command in `WorkerSend::ManagerCommand`, so a worker reports back
only by sending a command through the controller's channel. -/
def into_send (cmd : JobControllerCommand) : WorkerSend :=
  .ManagerCommand cmd

deriving instance DecidableEq for Except

/-- A value fulfilled into a reply slot by the controller: either the
cancellation result sent through a `CancelJob` ack, or the unit sent through
a `Shutdown` return sender. -/
inductive Reply where
  | cancelResult (r : Except JobManagerError Unit)
  | shutdownDone
  deriving DecidableEq, Repr

/-- The tracing calls of the controller loop, one per `map_or_else` arm. -/
inductive LogEvent where
  | enqueueFailed (e : JobManagerError)
  | enqueueSucceeded
  | cancelAckSendFailed
  | cancelAckSent
  | pauseFailed (e : JobManagerError)
  | pauseIssued
  | resumeFailed (e : JobManagerError)
  | resumeIssued
  | shutdownAckSendFailed
  | shutdownAckSent
  deriving DecidableEq, Repr

/-- The observable outcome of the controller loop handling one command:
the Manager state afterwards, the value sent into the command's reply slot
(`none` when the command has no reply slot), and what was logged. -/
structure StepOutput where
  state : ManagerState
  replySent : Option Reply
  log : List LogEvent
  deriving DecidableEq, Repr

/-- One iteration of `JobController::watch`'s `match event` dispatch
(controller.rs, lines 77–127): each arm calls the corresponding Manager
operation; `EnqueueJob`/`PauseJob`/`ResumeJob` only log their outcome,
`CancelJob` sends the Manager's result into its ack slot, `CompleteJob` is
silent, and `Shutdown` runs the full shutdown before sending `()` into the
return sender. A failed reply send (receiver gone) is logged and nothing
else. -/
def handleCommand (N : Nat) (s : ManagerState) (cmd : JobControllerCommand) :
    StepOutput :=
  match cmd with
  | .EnqueueJob id =>
    match enqueue N s id with
    | .error e => { state := s, replySent := none, log := [.enqueueFailed e] }
    | .ok s' => { state := s', replySent := none, log := [.enqueueSucceeded] }
  | .CompleteJob id =>
    { state := complete N s id, replySent := none, log := [] }
  | .CancelJob ⟨id, ackAlive⟩ =>
    match cancel s id with
    | (result, s') =>
      { state := s',
        replySent := some (.cancelResult result),
        log := [if ackAlive then .cancelAckSent else .cancelAckSendFailed] }
  | .PauseJob id =>
    match pause s id with
    | (result, s') =>
      { state := s', replySent := none,
        log := [match result with
          | .error e => .pauseFailed e
          | .ok _ => .pauseIssued] }
  | .ResumeJob id =>
    match resume s id with
    | (result, s') =>
      { state := s', replySent := none,
        log := [match result with
          | .error e => .resumeFailed e
          | .ok _ => .resumeIssued] }
  | .Shutdown ackAlive =>
    { state := shutdown s,
      replySent := some .shutdownDone,
      log := [if ackAlive then .shutdownAckSent else .shutdownAckSendFailed] }

/-- `JobController::watch` (controller.rs): the spawned loop receives the
commands of its unbounded channel one at a time, in arrival order, and
dispatches each through `handleCommand` before receiving the next; the
Manager state is threaded through this single sequential loop. -/
def watch (N : Nat) : ManagerState → List JobControllerCommand → ManagerState
  | s, [] => s
  | s, c :: cs => watch N (handleCommand N s c).state cs

/-- The states the Manager passes through while `watch` consumes a command
list: the state before each command and after the last. -/
def watchTrace (N : Nat) :
    ManagerState → List JobControllerCommand → List ManagerState
  | s, [] => [s]
  | s, c :: cs => s :: watchTrace N (handleCommand N s c).state cs

/-- The ingress side of the controller's unbounded mpsc channel: the pending
commands not yet received by the loop, and whether the receiving loop is
still alive (an unbounded tokio channel's `send` fails only in that case,
and never waits for capacity). -/
structure ChannelState where
  pending : List JobControllerCommand
  receiverAlive : Bool
  deriving DecidableEq, Repr

/-- `JobController::push_command` (controller.rs): `self.commands_tx.send(event)`
on the unbounded channel — appends the command and returns `Ok(())` whenever
the receiver is alive, regardless of how many commands are pending; returns
`Err(SendError(event))` when the receiver is gone. There is no capacity
check and no waiting. -/
def push_command (ch : ChannelState) (event : JobControllerCommand) :
    Except JobControllerCommand Unit × ChannelState :=
  if ch.receiverAlive then
    (.ok (), { ch with pending := ch.pending ++ [event] })
  else
    (.error event, ch)

end Stump

namespace StumpServer

/-- An emailer record as stored in the database (the fields relevant to the
route handlers: the id the routes address it by). -/
structure Emailer where
  id : Int
  name : String
  deriving DecidableEq, Repr

/-- The API error cases the emailer handlers can surface. -/
inductive APIError where
  | NotFound (msg : String)
  | InternalServerError (msg : String)
  deriving DecidableEq, Repr

/-- An authenticated session, carrying the requesting user's permission
names; the `Auth` middleware of `mount` guarantees a session exists before
any emailer handler runs. -/
structure Session where
  username : String
  permissions : List String
  deriving DecidableEq, Repr

/-- `delete_emailer` (emailer.rs, lines 249–265): deletes the emailer with
the given id and returns it; a delete on a missing record surfaces as a
lookup error through `?`. Its `session: Session` parameter is commented out
in the source and the `enforce_session_permissions` call is commented out,
so the function reads nothing about the caller. Returns the response
together with the database afterwards. -/
def delete_emailer (db : List Emailer) (id : Int) :
    Except APIError Emailer × List Emailer :=
  match db.find? (fun e => e.id = id) with
  | some e => (.ok e, db.filter (fun x => x.id ≠ id))
  | none => (.error (.NotFound "Emailer not found"), db)

/-- The DELETE /api/v1/emailers/:id route as mounted (emailer.rs `mount`):
after the `Auth` extractor admits the session, the request dispatches to
`delete_emailer`, which takes no session argument — the session is dropped
here and cannot influence the handler. -/
def handleDeleteEmailer (db : List Emailer) (id : Int) (_session : Session) :
    Except APIError Emailer × List Emailer :=
  delete_emailer db id

end StumpServer

namespace Stump

/-! ## Helper lemmas -/

theorem fillAux_running_le (N : Nat) (q : List String) (r : List RunningEntry)
    (st : List String) (h : r.length ≤ N) :
    (fillAux N q r st).2.1.length ≤ N := by
  induction q generalizing r st with
  | nil => simpa [fillAux] using h
  | cons id rest ih =>
    by_cases hlt : r.length < N
    · simpa [fillAux, hlt] using ih (r ++ [⟨id, false, false⟩]) (st ++ [id])
        (by simpa using Nat.succ_le_of_lt hlt)
    · simpa [fillAux, hlt] using h

theorem handleCommand_running_le (N : Nat) (s : ManagerState)
    (cmd : JobControllerCommand) (h : s.running.length ≤ N) :
    (handleCommand N s cmd).state.running.length ≤ N := by
  cases cmd with
  | EnqueueJob id =>
    by_cases hdup : id ∈ s.queue ∨ id ∈ runningIds s
    · simpa [handleCommand, enqueue, hdup] using h
    · by_cases hlt : s.running.length < N
      · simpa [handleCommand, enqueue, hdup, hlt] using Nat.succ_le_of_lt hlt
      · simpa [handleCommand, enqueue, hdup, hlt] using h
  | CompleteJob id =>
    have hfilter : (s.running.filter (fun e => e.id ≠ id)).length ≤ N :=
      le_trans (List.length_filter_le _ _) h
    simpa [handleCommand, complete, fillToCapacity] using
      fillAux_running_le N s.queue (s.running.filter (fun e => e.id ≠ id))
        s.started hfilter
  | CancelJob cmd =>
    obtain ⟨id, alive⟩ := cmd
    by_cases hq : id ∈ s.queue
    · simpa [handleCommand, cancel, hq] using h
    · by_cases hr : id ∈ runningIds s
      · simpa [handleCommand, cancel, hq, hr] using h
      · simpa [handleCommand, cancel, hq, hr] using h
  | PauseJob id =>
    by_cases hr : id ∈ runningIds s
    · simpa [handleCommand, pause, hr] using h
    · by_cases hq : id ∈ s.queue
      · simpa [handleCommand, pause, hr, hq] using h
      · simpa [handleCommand, pause, hr, hq] using h
  | ResumeJob id =>
    by_cases hr : id ∈ runningIds s
    · simpa [handleCommand, resume, hr] using h
    · by_cases hq : id ∈ s.queue
      · simpa [handleCommand, resume, hr, hq] using h
      · simpa [handleCommand, resume, hr, hq] using h
  | Shutdown alive =>
    simp [handleCommand, shutdown]

theorem watchTrace_running_le (N : Nat) (s : ManagerState)
    (cs : List JobControllerCommand) (h : s.running.length ≤ N) :
    ∀ t ∈ watchTrace N s cs, t.running.length ≤ N := by
  induction cs generalizing s with
  | nil =>
    intro t ht
    have heq : t = s := by simpa [watchTrace] using ht
    simpa [heq] using h
  | cons c cs' ih =>
    intro t ht
    rcases (by simpa [watchTrace] using ht : t = s ∨
        t ∈ watchTrace N (handleCommand N s c).state cs') with rfl | hmem
    · exact h
    · exact ih (handleCommand N s c).state (handleCommand_running_le N s c h) t hmem

end Stump

namespace Stump

/-! ## Claims -/

/-- C1: every `CancelJob(id, reply)` command processed by the controller
fulfils its reply slot exactly once, with the Manager's cancellation result,
which is always either `Ok(())` or an error (`NotFound`), including the case
where the id is unknown; no `CancelJob` reply slot is left pending. -/
theorem cancel_reply_always_fulfilled (N : Nat) (s : ManagerState)
    (id : String) (alive : Bool) :
    (handleCommand N s (.CancelJob ⟨id, alive⟩)).replySent
        = some (.cancelResult (cancel s id).1) ∧
    ((cancel s id).1 = .ok () ∨ (cancel s id).1 = .error .NotFound) := by
  refine ⟨rfl, ?_⟩
  unfold cancel
  by_cases hq : id ∈ s.queue
  · simp [hq]
  · by_cases hr : id ∈ runningIds s <;> simp [hq, hr]

/-- C2: handling `Shutdown(reply)` runs the Manager's full shutdown sequence
first and fulfils the reply slot only with that completed state: at the
moment the reply is sent, the running table and the queue are both empty. -/
theorem shutdown_reply_after_drain (N : Nat) (s : ManagerState) (alive : Bool) :
    (handleCommand N s (.Shutdown alive)).replySent = some .shutdownDone ∧
    (handleCommand N s (.Shutdown alive)).state = shutdown s ∧
    (handleCommand N s (.Shutdown alive)).state.queue = [] ∧
    (handleCommand N s (.Shutdown alive)).state.running = [] :=
  ⟨rfl, rfl, rfl, rfl⟩

/-- C3: the controller loop is the serialization point: the state after a
command list is the strict left-to-right sequential composition of
single-command handlers (each command sees exactly the state left by the
previous one, in dequeue order — the Manager state is threaded only through
this loop), and a worker's completion report enters the loop as an ordinary
`CompleteJob` command wrapped by `into_send`, never as a direct mutation. -/
theorem watch_serializes_commands (N : Nat) (s : ManagerState)
    (cs : List JobControllerCommand) (c : JobControllerCommand) (id : String) :
    watch N s (cs ++ [c]) = (handleCommand N (watch N s cs) c).state ∧
    watch N s (c :: cs) = watch N (handleCommand N s c).state cs ∧
    into_send (.CompleteJob id) = .ManagerCommand (.CompleteJob id) := by
  refine ⟨?_, rfl, rfl⟩
  induction cs generalizing s with
  | nil => rfl
  | cons c' cs' ih => simpa [watch] using ih (handleCommand N s c').state

/-- C4: from any state within the concurrency budget (in particular the
empty initial state), the running table never exceeds the configured limit
`N` at any point of any command sequence — a fortiori for every sequence of
`EnqueueJob` commands with distinct ids; and a fresh id is admitted straight
to Running exactly when `|running| < N`, otherwise appended to the tail of
the queue. -/
theorem running_never_exceeds_limit (N : Nat)
    (cs : List JobControllerCommand) (s : ManagerState) (id : String)
    (hs : s.running.length ≤ N)
    (hfresh : ¬ (id ∈ s.queue ∨ id ∈ runningIds s)) :
    (∀ t ∈ watchTrace N s cs, t.running.length ≤ N) ∧
    (s.running.length < N →
      enqueue N s id = .ok { s with
        running := s.running ++ [⟨id, false, false⟩],
        started := s.started ++ [id] }) ∧
    (N ≤ s.running.length →
      enqueue N s id = .ok { s with queue := s.queue ++ [id] }) := by
  refine ⟨watchTrace_running_le N s cs hs, ?_, ?_⟩
  · intro hlt
    simp [enqueue, hfresh, hlt]
  · intro hge
    simp [enqueue, hfresh, Nat.not_lt.mpr hge]

/-- Witness for C4 at `N = 1` on the empty initial state. -/
theorem running_never_exceeds_limit_witness :
    enqueue 1 initialState "A" = .ok
      { initialState with running := [⟨"A", false, false⟩], started := ["A"] } :=
  (running_never_exceeds_limit 1 [] initialState "A" (by decide)
    (by decide)).2.1 (by decide)

end Stump

namespace Stump

/-- C5: `Cancel(id)` on a queued id succeeds, removes the job directly from
the queue and never dispatches its run hook (`started` is untouched); on a
running id it succeeds immediately after raising the cancellation signal,
the entry staying in the running table; on an id in neither it returns
`NotFound` and leaves the state unchanged. -/
theorem cancel_case_analysis (s : ManagerState) (id : String) :
    (id ∈ s.queue →
      cancel s id
        = (.ok (), { s with queue := s.queue.filter (fun q => q ≠ id) }) ∧
      id ∉ (cancel s id).2.queue ∧
      (cancel s id).2.started = s.started) ∧
    (id ∉ s.queue → id ∈ runningIds s →
      (cancel s id).1 = .ok () ∧
      (cancel s id).2 = { s with running := s.running.map (fun e =>
        if e.id = id then { e with cancelRequested := true } else e) } ∧
      (∀ e ∈ (cancel s id).2.running, e.id = id → e.cancelRequested = true) ∧
      id ∈ runningIds (cancel s id).2 ∧
      (cancel s id).2.started = s.started) ∧
    (id ∉ s.queue → id ∉ runningIds s →
      cancel s id = (.error .NotFound, s)) := by
  refine ⟨?_, ?_, ?_⟩
  · intro hq
    refine ⟨by simp [cancel, hq], ?_, by simp [cancel, hq]⟩
    simp [cancel, hq]
  · intro hq hr
    refine ⟨by simp [cancel, hq, hr], by simp [cancel, hq, hr], ?_, ?_,
      by simp [cancel, hq, hr]⟩
    · intro e he hid
      rcases (by simpa [cancel, hq, hr] using he :
          ∃ a ∈ s.running,
            (if a.id = id then { a with cancelRequested := true } else a) = e)
        with ⟨a, _, rfl⟩
      by_cases ha : a.id = id
      · simp [ha]
      · rw [if_neg ha] at hid
        exact absurd hid ha
    · rcases (by simpa [runningIds] using hr :
          ∃ a ∈ s.running, a.id = id) with ⟨a, ha, haid⟩
      have hstate : (cancel s id).1 = .ok ()
          ∧ (cancel s id).2 = { s with running := s.running.map (fun e =>
            if e.id = id then { e with cancelRequested := true } else e) } := by
        constructor <;> simp [cancel, hq, hr]
      rw [hstate.2]
      refine List.mem_map.mpr ⟨{ a with cancelRequested := true }, ?_, haid⟩
      refine List.mem_map.mpr ⟨a, ha, ?_⟩
      simp [haid]
  · intro hq hr
    simp [cancel, hq, hr]

/-- Witness for C5: cancelling the queued id "A" removes it from the queue
and dispatches no run hook. -/
theorem cancel_case_analysis_witness :
    "A" ∉ (cancel ⟨["A"], [⟨"B", false, false⟩], ["B"]⟩ "A").2.queue ∧
    (cancel ⟨["A"], [⟨"B", false, false⟩], ["B"]⟩ "A").2.started = ["B"] := by
  have h := (cancel_case_analysis ⟨["A"], [⟨"B", false, false⟩], ["B"]⟩ "A").1
    (by decide)
  exact ⟨h.2.1, h.2.2⟩

/-- C6: `EnqueueJob` is fire-and-forget: the controller fulfils no reply
slot for it, an admission failure (e.g. `DuplicateId`) leaves the state
untouched and is logged only, and a successful admission is logged only. -/
theorem enqueue_fire_and_forget (N : Nat) (s : ManagerState) (id : String) :
    (handleCommand N s (.EnqueueJob id)).replySent = none ∧
    (∀ e, enqueue N s id = .error e →
      handleCommand N s (.EnqueueJob id) = ⟨s, none, [.enqueueFailed e]⟩) ∧
    (∀ s', enqueue N s id = .ok s' →
      handleCommand N s (.EnqueueJob id) = ⟨s', none, [.enqueueSucceeded]⟩) := by
  refine ⟨?_, ?_, ?_⟩
  · cases h : enqueue N s id <;> simp [handleCommand, h]
  · intro e he
    simp [handleCommand, he]
  · intro s' hs'
    simp [handleCommand, hs']

/-- Witness for C6: a duplicate enqueue produces no reply and only an error
log entry. -/
theorem enqueue_fire_and_forget_witness :
    handleCommand 2 ⟨["A"], [], []⟩ (.EnqueueJob "A")
      = ⟨⟨["A"], [], []⟩, none, [.enqueueFailed .DuplicateId]⟩ :=
  (enqueue_fire_and_forget 2 ⟨["A"], [], []⟩ "A").2.1 .DuplicateId (by decide)

/-- C7: `PauseJob`/`ResumeJob` fulfil no reply slot; they are valid only
against Running jobs: an id in neither table yields `NotFound`, a queued id
yields `InvalidState`, both only logged; and every failing pause/resume
leaves the Manager state unchanged. -/
theorem pause_resume_fire_and_forget (N : Nat) (s : ManagerState)
    (id : String) :
    (handleCommand N s (.PauseJob id)).replySent = none ∧
    (handleCommand N s (.ResumeJob id)).replySent = none ∧
    (id ∉ runningIds s → id ∉ s.queue →
      pause s id = (.error .NotFound, s) ∧
      resume s id = (.error .NotFound, s) ∧
      (handleCommand N s (.PauseJob id)).log = [.pauseFailed .NotFound] ∧
      (handleCommand N s (.ResumeJob id)).log = [.resumeFailed .NotFound]) ∧
    (id ∉ runningIds s → id ∈ s.queue →
      pause s id = (.error .InvalidState, s) ∧
      resume s id = (.error .InvalidState, s) ∧
      (handleCommand N s (.PauseJob id)).log = [.pauseFailed .InvalidState] ∧
      (handleCommand N s (.ResumeJob id)).log
        = [.resumeFailed .InvalidState]) ∧
    (∀ e, (pause s id).1 = .error e → (pause s id).2 = s) ∧
    (∀ e, (resume s id).1 = .error e → (resume s id).2 = s) := by
  refine ⟨rfl, rfl, ?_, ?_, ?_, ?_⟩
  · intro hr hq
    exact ⟨by simp [pause, hr, hq], by simp [resume, hr, hq],
      by simp [handleCommand, pause, hr, hq],
      by simp [handleCommand, resume, hr, hq]⟩
  · intro hr hq
    exact ⟨by simp [pause, hr, hq], by simp [resume, hr, hq],
      by simp [handleCommand, pause, hr, hq],
      by simp [handleCommand, resume, hr, hq]⟩
  · intro e he
    by_cases hr : id ∈ runningIds s
    · simp [pause, hr] at he
    · by_cases hq : id ∈ s.queue <;> simp [pause, hr, hq]
  · intro e he
    by_cases hr : id ∈ runningIds s
    · simp [resume, hr] at he
    · by_cases hq : id ∈ s.queue <;> simp [resume, hr, hq]

/-- Witness for C7: pausing the never-enqueued id "x" yields `NotFound` and
leaves the (empty) state unchanged. -/
theorem pause_resume_fire_and_forget_witness :
    pause initialState "x" = (.error .NotFound, initialState) ∧
    resume initialState "x" = (.error .NotFound, initialState) := by
  have h := (pause_resume_fire_and_forget 0 initialState "x").2.2.1
    (by decide) (by decide)
  exact ⟨h.1, h.2.1⟩

/-- C8: `push_command` never blocks the producer: whenever the controller
loop is alive it succeeds in one step and appends the command, for a pending
backlog of any length — the unbounded channel has no capacity check. -/
theorem push_command_never_blocks (ch : ChannelState)
    (event : JobControllerCommand) (h : ch.receiverAlive = true) :
    push_command ch event
      = (.ok (), { ch with pending := ch.pending ++ [event] }) ∧
    (push_command ch event).2.pending.length = ch.pending.length + 1 := by
  constructor
  · simp [push_command, h]
  · simp [push_command, h]

/-- Witness for C8 on a channel that already has two pending commands. -/
theorem push_command_never_blocks_witness :
    push_command ⟨[.PauseJob "A", .Shutdown true], true⟩ (.EnqueueJob "Z")
      = (.ok (), ⟨[.PauseJob "A", .Shutdown true, .EnqueueJob "Z"], true⟩) :=
  (push_command_never_blocks ⟨[.PauseJob "A", .Shutdown true], true⟩
    (.EnqueueJob "Z") rfl).1

/-- C9: a reply-delivery failure (the ack receiver having gone away) is
fatal only to that single request: the Manager's transition for the command
is applied identically whether or not the receiver is alive, the failure is
merely logged, and the loop processes the remaining commands exactly as it
would have. -/
theorem reply_delivery_failure_isolated (N : Nat) (s : ManagerState)
    (id : String) (cs : List JobControllerCommand) :
    (handleCommand N s (.CancelJob ⟨id, false⟩)).state
        = (handleCommand N s (.CancelJob ⟨id, true⟩)).state ∧
    (handleCommand N s (.CancelJob ⟨id, false⟩)).state = (cancel s id).2 ∧
    (handleCommand N s (.CancelJob ⟨id, false⟩)).log = [.cancelAckSendFailed] ∧
    (handleCommand N s (.Shutdown false)).state
        = (handleCommand N s (.Shutdown true)).state ∧
    (handleCommand N s (.Shutdown false)).state = shutdown s ∧
    (handleCommand N s (.Shutdown false)).log = [.shutdownAckSendFailed] ∧
    watch N s (.CancelJob ⟨id, false⟩ :: cs) = watch N (cancel s id).2 cs :=
  ⟨rfl, rfl, rfl, rfl, rfl, rfl, rfl⟩

end Stump

namespace StumpServer

/-- C10: the response of DELETE /api/v1/emailers/:id is independent of the
requesting user's session and permissions — any two authenticated sessions
observe the identical response and database effect — because the handler
never reads the session: it unconditionally deletes and returns the
addressed emailer, or a lookup error when it is absent. -/
theorem delete_emailer_ignores_permissions (db : List Emailer) (id : Int)
    (s1 s2 : Session) :
    handleDeleteEmailer db id s1 = handleDeleteEmailer db id s2 ∧
    (∀ e, db.find? (fun x => x.id = id) = some e →
      handleDeleteEmailer db id s1
        = (.ok e, db.filter (fun x => x.id ≠ id))) ∧
    (db.find? (fun x => x.id = id) = none →
      handleDeleteEmailer db id s1
        = (.error (.NotFound "Emailer not found"), db)) := by
  refine ⟨rfl, ?_, ?_⟩
  · intro e he
    simp [handleDeleteEmailer, delete_emailer, he]
  · intro he
    simp [handleDeleteEmailer, delete_emailer, he]

/-- Witness for C10: a caller with no permissions deletes emailer 1. -/
theorem delete_emailer_ignores_permissions_witness :
    handleDeleteEmailer [⟨1, "primary"⟩, ⟨2, "backup"⟩] 1 ⟨"alice", []⟩
      = (.ok ⟨1, "primary"⟩, [⟨2, "backup"⟩]) := by
  have h := (delete_emailer_ignores_permissions
    [⟨1, "primary"⟩, ⟨2, "backup"⟩] 1 ⟨"alice", []⟩
    ⟨"bob", ["emailer:manage"]⟩).2.1 ⟨1, "primary"⟩ (by decide)
  simpa using h

end StumpServer
